import Mathlib

/-!
# Verification of the mtc reconciliation engine

This file gives a shallow embedding of the core of the mtc repository
(`src/lib.rs`, `src/items.rs`, `src/remote.rs`) and proves or refutes the
frozen specification claims about it.

Modelling conventions:

* The Rust trait `MtcItem` is implemented (in `src/items.rs`) by three
  record types that all consist of a block of domain fields (the "content",
  which is exactly what `ignore_state_eq` compares), an `ItemState` and a
  `usize` id.  We embed an item as `Item α` where `α` is the content type;
  `Todo`, `Task` and `Event` below are the three concrete content types.
* `usize` ids become `Nat` (no overflow is relevant: ids are list indices).
* `chrono::NaiveDate` becomes `Int`, counting days; for dates,
  `a.signed_duration_since(b).num_days()` is exactly `a - b` in this model.
  The ambient clock `Local::today()` becomes an explicit `today` parameter.
* Rust panics are modelled by `Option`: `sync` returns `none` exactly when
  the Rust code panics.
* Mutation becomes explicit state passing: a Rust method `&mut self` that
  returns `r` becomes a Lean function returning the pair of `r` and the new
  list (or just the new list when `r` is `()`).
-/

/-- `ItemState` from `src/lib.rs` (lines 160-168). -/
inductive ItemState : Type where
  | New : ItemState
  | Removed : ItemState
  | Neutral : ItemState
deriving DecidableEq, Repr

/-- An `MtcItem`: content payload of type `α` (the fields compared by
`ignore_state_eq`), a lifecycle state and a positional id.  This is the
common shape of `Todo`, `Task` and `Event` in `src/items.rs`. -/
structure Item (α : Type) : Type where
  content : α
  state : ItemState
  id : Nat
deriving DecidableEq, Repr

/-- `MtcItem::ignore_state_eq`: compares the domain fields only, ignoring
`state` and `id` (`src/items.rs` lines 190-192, 244-246, 298-300). -/
def Item.ignore_state_eq (a b : Item α) : Prop := a.content = b.content

instance [DecidableEq α] (a b : Item α) : Decidable (a.ignore_state_eq b) :=
  inferInstanceAs (Decidable (a.content = b.content))

/-- `MtcItem::set_state`. -/
def Item.set_state (a : Item α) (s : ItemState) : Item α := { a with state := s }

/-- `MtcItem::set_id`. -/
def Item.set_id (a : Item α) (n : Nat) : Item α := { a with id := n }

namespace Mtc

/-- Content of a `Todo` (`src/items.rs` lines 8-13): a body and an optional
weekday (weekdays are rendered as `Fin 7`).  (`Todo`, `Task`, `Event` live
in a `Mtc` namespace because core Lean already has a `Task` type.) -/
structure Todo : Type where
  body : String
  weekday : Option (Fin 7)
deriving DecidableEq, Repr

/-- Content of a `Task` (`src/items.rs` lines 17-23): body, 7-entry weekday
mask and a duration in minutes. -/
structure Task : Type where
  body : String
  weekdays : List Bool
  duration : Nat
deriving DecidableEq, Repr

/-- Content of an `Event` (`src/items.rs` lines 27-32): body and date. -/
structure Event : Type where
  body : String
  date : Int
deriving DecidableEq, Repr

/-- `Todo::expired` (`src/items.rs` lines 199-201): always false. -/
def Todo.expired (_ : Todo) : Bool := false

/-- `Task::expired` (`src/items.rs` lines 253-255): always false. -/
def Task.expired (_ : Task) : Bool := false

/-- `Event::expired` (`src/items.rs` lines 307-310):
`self.date.signed_duration_since(today).num_days() < -3`, with the call-time
`Local::today()` made an explicit `today` parameter. -/
def Event.expired (today : Int) (e : Event) : Bool := decide (e.date - today < -3)

end Mtc

/-- `MtcList` from `src/lib.rs` (lines 173-177). -/
structure MtcList (α : Type) : Type where
  items : List (Item α)
  is_server : Bool
deriving DecidableEq, Repr

namespace MtcList

/-- `MtcList::new` (`src/lib.rs` lines 181-186). -/
def new (is_server : Bool) : MtcList α := ⟨[], is_server⟩

/-- `MtcList::add` (`src/lib.rs` lines 189-200): stamps the state
(`Neutral` on a server, `New` on a client), sets `id` to the length before
the push, appends, and returns the id. -/
def add (l : MtcList α) (item : Item α) : Nat × MtcList α :=
  let stamped : Item α :=
    { item with
      state := if l.is_server then ItemState.Neutral else ItemState.New
      id := l.items.length }
  (l.items.length, { l with items := l.items ++ [stamped] })

/-- Re-number every item's id to its index: `MtcList::map_indices_to_ids`
(`src/lib.rs` lines 424-428), written with an explicit running index. -/
def setIds : Nat → List (Item α) → List (Item α)
  | _, [] => []
  | n, it :: rest => { it with id := n } :: setIds (n + 1) rest

/-- `MtcList::map_indices_to_ids` (`src/lib.rs` lines 424-428). -/
def map_indices_to_ids (l : MtcList α) : MtcList α :=
  { l with items := setIds 0 l.items }

/-- `MtcList::mark_removed` (`src/lib.rs` lines 203-219).  Returns the
`Result` together with the (possibly unchanged) list. -/
def mark_removed (l : MtcList α) (id : Nat) : Except String Unit × MtcList α :=
  match l.items[id]? with
  | some item =>
    if l.is_server then
      (Except.ok (), map_indices_to_ids { l with items := l.items.eraseIdx id })
    else if item.state = ItemState.Removed then
      (Except.error "No item with the given id found.", l)
    else
      (Except.ok (), { l with items := l.items.set id { item with state := ItemState.Removed } })
  | none => (Except.error "No item with the given id found.", l)

/-- `MtcList::get_by_id` (`src/lib.rs` lines 222-231). -/
def get_by_id (l : MtcList α) (id : Nat) : Option (Item α) :=
  match l.items[id]? with
  | some i => if i.state ≠ ItemState.Removed then some i else none
  | none => none

/-- `MtcList::items` (`src/lib.rs` lines 234-244): all non-`Removed` items in
order.  (Named `itemsList` because `items` is the field name.) -/
def itemsList (l : MtcList α) : List (Item α) :=
  l.items.filter fun it => decide (it.state ≠ ItemState.Removed)

/-- The body of the `sync_self` loop (`src/lib.rs` lines 282-285): set every
state to `Neutral` and every id to its index, with an explicit running
index. -/
def setNeutralIds : Nat → List (Item α) → List (Item α)
  | _, [] => []
  | n, it :: rest =>
    { it with state := ItemState.Neutral, id := n } :: setNeutralIds (n + 1) rest

/-- `MtcList::sync_self` (`src/lib.rs` lines 280-286): retain non-`Removed`
items, then set state `Neutral` and dense ids. -/
def sync_self (l : MtcList α) : MtcList α :=
  { l with items := setNeutralIds 0 (l.items.filter fun it => decide (it.state ≠ ItemState.Removed)) }

/-- `MtcList::clone_to_server` (`src/lib.rs` lines 271-277). -/
def clone_to_server (l : MtcList α) : MtcList α :=
  sync_self { l with is_server := true }

/-- `MtcList::remove_expired` (`src/lib.rs` lines 416-422), with the item's
`expired()` method abstracted as a predicate on the content. -/
def remove_expired (l : MtcList α) (exp : α → Bool) : MtcList α :=
  { l with items := l.items.map fun it =>
      if exp it.content then { it with state := ItemState.Removed } else it }

/-- The inner loop of the `Removed` branch of `sync` (`src/lib.rs` lines
365-372): mark the first not-already-`Removed` content-equal server item as
`Removed` and stop. -/
def removeFirstMatch [DecidableEq α] (target : Item α) : List (Item α) → List (Item α)
  | [] => []
  | e :: rest =>
    if e.ignore_state_eq target ∧ e.state ≠ ItemState.Removed then
      { e with state := ItemState.Removed } :: rest
    else
      e :: removeFirstMatch target rest

/-- Pass 1 of `sync` (`src/lib.rs` lines 361-389): walk the client items in
order, mutating the server list as we go; returns the updated client items
and the updated server list. -/
def syncStep1 [DecidableEq α] : MtcList α → List (Item α) → List (Item α) × MtcList α
  | server, [] => ([], server)
  | server, it :: rest =>
    if it.state = ItemState.Removed then
      let p := syncStep1 { server with items := removeFirstMatch it server.items } rest
      (it :: p.1, p.2)
    else if it.state = ItemState.New then
      let p := syncStep1 (server.add it).2 rest
      (it :: p.1, p.2)
    else
      if ∃ e ∈ server.items, e.ignore_state_eq it then
        let p := syncStep1 server rest
        (it :: p.1, p.2)
      else
        let p := syncStep1 server rest
        (it.set_state ItemState.Removed :: p.1, p.2)

/-- Pass 2 of `sync` (`src/lib.rs` lines 393-409): walk the (now fixed)
server items; every non-`Removed` server item with no non-`Removed`
content-equal client item is `add`ed to the client list. -/
def syncStep2 [DecidableEq α] : MtcList α → List (Item α) → MtcList α
  | client, [] => client
  | client, it :: rest =>
    if it.state ≠ ItemState.Removed then
      if ∃ e ∈ client.items, e.ignore_state_eq it ∧ e.state ≠ ItemState.Removed then
        syncStep2 client rest
      else
        syncStep2 (client.add it).2 rest
    else
      syncStep2 client rest

/-- `MtcList::sync` (`src/lib.rs` lines 344-413).  `none` models the panic
on the precondition violation (both or neither list a server). -/
def sync [DecidableEq α] (self other : MtcList α) : Option (MtcList α × MtcList α) :=
  if self.is_server = true ∧ other.is_server = true then none
  else if self.is_server = false ∧ other.is_server = false then none
  else
    let client := if self.is_server then other else self
    let server := if self.is_server then self else other
    let p := syncStep1 server client.items
    let client2 := syncStep2 { client with items := p.1 } p.2.items
    let client3 := client2.sync_self
    let server2 := p.2.sync_self
    if self.is_server then some (server2, client3) else some (client3, server2)

end MtcList

/-- `sync_remote` (`src/remote.rs` lines 11-31) with the transport made
explicit: `remote` is the deserialized list the fetch would return, and the
second component of the result is the serialized list the function stores to
the remote path.  The first component is the client list as left in memory.
`none` models the panic propagated from `sync`. -/
def sync_remote [DecidableEq α] (client : MtcList α) (remote : MtcList α)
    (overwrite : Bool) : Option (MtcList α × MtcList α) :=
  if overwrite then
    let c := client.sync_self
    some (c, c)
  else
    match client.sync remote with
    | some (c, s) => some (c, s)
    | none => none

/-- The public container operations of the spec's §3 invariant claim, acting
on one distinguished list; `sync` can be entered with the list in either
argument position (`syncAsSelf`: the list is the receiver; `syncAsOther`:
the list is the argument).  A panicking `sync` leaves the list unchanged
(the operation does not complete). -/
inductive Op (α : Type) : Type where
  | add (it : Item α) : Op α
  | markRemoved (id : Nat) : Op α
  | removeExpired (exp : α → Bool) : Op α
  | syncSelf : Op α
  | syncAsSelf (other : MtcList α) : Op α
  | syncAsOther (other : MtcList α) : Op α

/-- Whether an `Op` is a `removeExpired`. -/
def Op.isRemoveExpired : Op α → Bool
  | .removeExpired _ => true
  | _ => false

/-- Apply one public operation to the distinguished list. -/
def applyOp [DecidableEq α] (l : MtcList α) : Op α → MtcList α
  | .add it => (l.add it).2
  | .markRemoved id => (l.mark_removed id).2
  | .removeExpired exp => l.remove_expired exp
  | .syncSelf => l.sync_self
  | .syncAsSelf other =>
    match l.sync other with
    | some p => p.1
    | none => l
  | .syncAsOther other =>
    match other.sync l with
    | some p => p.2
    | none => l

/-- Apply a sequence of public operations in order. -/
def applyOps [DecidableEq α] (l : MtcList α) (ops : List (Op α)) : MtcList α :=
  ops.foldl applyOp l

/-! ## Helper lemmas -/

namespace MtcList

variable {α : Type}

@[simp] lemma setNeutralIds_nil (n : Nat) : setNeutralIds n ([] : List (Item α)) = [] := rfl

@[simp] lemma setNeutralIds_cons (n : Nat) (it : Item α) (rest : List (Item α)) :
    setNeutralIds n (it :: rest) =
      { it with state := ItemState.Neutral, id := n } :: setNeutralIds (n + 1) rest := rfl

lemma setNeutralIds_map_content (n : Nat) (xs : List (Item α)) :
    (setNeutralIds n xs).map Item.content = xs.map Item.content := by
  induction xs generalizing n with
  | nil => rfl
  | cons a t ih => simp [ih]

lemma setNeutralIds_states (n : Nat) (xs : List (Item α)) :
    ∀ x ∈ setNeutralIds n xs, x.state = ItemState.Neutral := by
  induction xs generalizing n with
  | nil => simp
  | cons a t ih =>
    intro x hx
    simp only [setNeutralIds_cons, List.mem_cons] at hx
    rcases hx with rfl | hx
    · rfl
    · exact ih (n + 1) x hx

lemma setNeutralIds_getElem? (xs : List (Item α)) :
    ∀ (n i : Nat),
      (setNeutralIds n xs)[i]? =
        xs[i]?.map fun it => { it with state := ItemState.Neutral, id := n + i } := by
  induction xs with
  | nil => intro n i; simp
  | cons a t ih =>
    intro n i
    cases i with
    | zero => simp
    | succ j =>
      simp only [setNeutralIds_cons, List.getElem?_cons_succ, ih (n + 1) j]
      have : n + 1 + j = n + (j + 1) := by omega
      rw [this]

lemma setNeutralIds_setNeutralIds (m n : Nat) (xs : List (Item α)) :
    setNeutralIds m (setNeutralIds n xs) = setNeutralIds m xs := by
  induction xs generalizing m n with
  | nil => rfl
  | cons a t ih => simp [ih]

lemma filter_of_all_not_removed {xs : List (Item α)}
    (h : ∀ x ∈ xs, x.state ≠ ItemState.Removed) :
    (xs.filter fun it => decide (it.state ≠ ItemState.Removed)) = xs := by
  induction xs with
  | nil => rfl
  | cons a t ih =>
    have ha : (decide (a.state ≠ ItemState.Removed)) = true := by
      simpa using h a (by simp)
    have ht := ih fun x hx => h x (by simp [hx])
    rw [List.filter_cons, ha, if_pos rfl, ht]

lemma ext_of_fields {a b : MtcList α} (h1 : a.items = b.items)
    (h2 : a.is_server = b.is_server) : a = b := by
  cases a; cases b; cases h1; cases h2; rfl

lemma sync_self_items (l : MtcList α) :
    l.sync_self.items =
      setNeutralIds 0 (l.items.filter fun it => decide (it.state ≠ ItemState.Removed)) := rfl

lemma sync_self_is_server (l : MtcList α) : l.sync_self.is_server = l.is_server := rfl

lemma sync_self_states (l : MtcList α) :
    ∀ x ∈ l.sync_self.items, x.state = ItemState.Neutral :=
  setNeutralIds_states 0 _

lemma sync_self_map_content (l : MtcList α) :
    l.sync_self.items.map Item.content =
      ((l.items.filter fun it => decide (it.state ≠ ItemState.Removed)).map Item.content) :=
  setNeutralIds_map_content 0 _

lemma sync_self_idem (l : MtcList α) : l.sync_self.sync_self = l.sync_self := by
  have h1 : (l.sync_self.items.filter fun it => decide (it.state ≠ ItemState.Removed)) =
      l.sync_self.items :=
    filter_of_all_not_removed fun x hx => by
      rw [sync_self_states l x hx]; intro h; cases h
  refine ext_of_fields ?_ rfl
  rw [sync_self_items, h1, sync_self_items, setNeutralIds_setNeutralIds]

lemma setIds_states (n : Nat) (xs : List (Item α)) :
    ∀ x ∈ setIds n xs, ∃ y ∈ xs, x.state = y.state := by
  induction xs generalizing n with
  | nil => simp [setIds]
  | cons a t ih =>
    intro x hx
    simp only [setIds, List.mem_cons] at hx
    rcases hx with rfl | hx
    · exact ⟨a, by simp, rfl⟩
    · obtain ⟨y, hy, hxy⟩ := ih (n + 1) x hx
      exact ⟨y, by simp [hy], hxy⟩

lemma syncStep1_is_server [DecidableEq α] (cs : List (Item α)) :
    ∀ srv : MtcList α, (syncStep1 srv cs).2.is_server = srv.is_server := by
  induction cs with
  | nil => intro srv; rfl
  | cons it rest ih =>
    intro srv
    simp only [syncStep1]
    split
    · exact ih _
    · split
      · exact ih _
      · split
        · exact ih _
        · exact ih _

lemma syncStep2_is_server [DecidableEq α] (sv : List (Item α)) :
    ∀ cl : MtcList α, (syncStep2 cl sv).is_server = cl.is_server := by
  induction sv with
  | nil => intro cl; rfl
  | cons it rest ih =>
    intro cl
    simp only [syncStep2]
    split
    · split
      · exact ih _
      · exact ih _
    · exact ih _

/-- Shape of `sync` when called as `client.sync server`. -/
lemma sync_eq_client (c s : MtcList α) [DecidableEq α]
    (hc : c.is_server = false) (hs : s.is_server = true) :
    c.sync s = some
      ((syncStep2 { c with items := (syncStep1 s c.items).1 }
          (syncStep1 s c.items).2.items).sync_self,
        (syncStep1 s c.items).2.sync_self) := by
  simp [MtcList.sync, hc, hs]

/-- Shape of `sync` when called as `server.sync client`. -/
lemma sync_eq_server (s c : MtcList α) [DecidableEq α]
    (hs : s.is_server = true) (hc : c.is_server = false) :
    s.sync c = some
      ((syncStep1 s c.items).2.sync_self,
        (syncStep2 { c with items := (syncStep1 s c.items).1 }
          (syncStep1 s c.items).2.items).sync_self) := by
  simp [MtcList.sync, hc, hs]

lemma removeFirstMatch_of_no_match [DecidableEq α] (t : Item α) (l : List (Item α))
    (h : ∀ e ∈ l, ¬(e.ignore_state_eq t ∧ e.state ≠ ItemState.Removed)) :
    removeFirstMatch t l = l := by
  induction l with
  | nil => rfl
  | cons e rest ih =>
    have he := h e (by simp)
    simp only [removeFirstMatch, he, if_false]
    rw [ih fun x hx => h x (by simp [hx])]

lemma removeFirstMatch_first [DecidableEq α] (t : Item α) :
    ∀ (l : List (Item α)) (j : Nat) (hj : j < l.length),
      ((l.get ⟨j, hj⟩).ignore_state_eq t ∧ (l.get ⟨j, hj⟩).state ≠ ItemState.Removed) →
      (∀ k, k < j → ∀ (hk : k < l.length),
        ¬((l.get ⟨k, hk⟩).ignore_state_eq t ∧
          (l.get ⟨k, hk⟩).state ≠ ItemState.Removed)) →
      removeFirstMatch t l = l.set j { l.get ⟨j, hj⟩ with state := ItemState.Removed } := by
  intro l
  induction l with
  | nil => intro j hj; simp at hj
  | cons e rest ih =>
    intro j hj hmatch hfirst
    cases j with
    | zero =>
      have hm : e.ignore_state_eq t ∧ e.state ≠ ItemState.Removed := hmatch
      simp only [removeFirstMatch]
      rw [if_pos hm]
      rfl
    | succ j' =>
      have he : ¬(e.ignore_state_eq t ∧ e.state ≠ ItemState.Removed) :=
        hfirst 0 (Nat.succ_pos j') (by simp)
      have hj' : j' < rest.length := by simpa using hj
      have hrec := ih j' hj' hmatch
        (fun k hk hk2 => hfirst (k + 1) (by omega) (by simpa using hk2))
      simp only [removeFirstMatch]
      rw [if_neg he]
      show e :: removeFirstMatch t rest = (e :: rest).set (j' + 1) _
      rw [hrec]
      rfl

end MtcList

/-! ## Claim theorems -/

/-- C5.  `sync_self` keeps exactly the non-`Removed` items in their original
relative order (position `i` of the result is position `i` of the filtered
input), gives each survivor `state = Neutral` and `id = i` (dense ids
`0..n-1`), and is idempotent. -/
theorem sync_self_spec {α : Type} (l : MtcList α) :
    (∀ i : Nat,
      (l.sync_self.items)[i]? =
        ((l.items.filter fun it => decide (it.state ≠ ItemState.Removed))[i]?).map
          fun it => { it with state := ItemState.Neutral, id := i }) ∧
    l.sync_self.sync_self = l.sync_self := by
  constructor
  · intro i
    show (MtcList.setNeutralIds 0 _)[i]? = _
    rw [MtcList.setNeutralIds_getElem?]
    simp
  · exact MtcList.sync_self_idem l

/-- C3.  In `sync`, each client item in state `Removed` transforms the server
items by `removeFirstMatch` (first conjunct); `removeFirstMatch` marks the
first content-equal, not-already-`Removed` server item as `Removed`, leaving
every other server item untouched (`List.set` changes exactly one position),
and is the identity when no such server item exists (silent no-op). -/
theorem sync_removed_branch {α : Type} [DecidableEq α] (it : Item α)
    (hit : it.state = ItemState.Removed) (server : MtcList α) (rest : List (Item α)) :
    (MtcList.syncStep1 server (it :: rest) =
      ((it :: (MtcList.syncStep1
          { server with items := MtcList.removeFirstMatch it server.items } rest).1),
        (MtcList.syncStep1
          { server with items := MtcList.removeFirstMatch it server.items } rest).2)) ∧
    (∀ j, (hj : j < server.items.length) →
      ((server.items.get ⟨j, hj⟩).ignore_state_eq it ∧
        (server.items.get ⟨j, hj⟩).state ≠ ItemState.Removed) →
      (∀ k, k < j → ∀ (hk : k < server.items.length),
        ¬((server.items.get ⟨k, hk⟩).ignore_state_eq it ∧
          (server.items.get ⟨k, hk⟩).state ≠ ItemState.Removed)) →
      MtcList.removeFirstMatch it server.items =
        server.items.set j { server.items.get ⟨j, hj⟩ with state := ItemState.Removed }) ∧
    ((∀ e ∈ server.items, ¬(e.ignore_state_eq it ∧ e.state ≠ ItemState.Removed)) →
      MtcList.removeFirstMatch it server.items = server.items) := by
  refine ⟨?_, ?_, ?_⟩
  · simp only [MtcList.syncStep1]
    rw [if_pos hit]
  · intro j hj hm hf
    exact MtcList.removeFirstMatch_first it server.items j hj hm hf
  · intro h
    exact MtcList.removeFirstMatch_of_no_match it server.items h

/-- Witness for C3 at a concrete input: client item with content `5`, server
`[3 Neutral, 5 Removed, 5 Neutral, 5 Neutral]`; the first live match is at
index 2 and exactly that item is marked. -/
theorem sync_removed_branch_witness :
    MtcList.removeFirstMatch (⟨5, ItemState.Removed, 0⟩ : Item Nat)
        [⟨3, ItemState.Neutral, 0⟩, ⟨5, ItemState.Removed, 1⟩,
          ⟨5, ItemState.Neutral, 2⟩, ⟨5, ItemState.Neutral, 3⟩] =
      [⟨3, ItemState.Neutral, 0⟩, ⟨5, ItemState.Removed, 1⟩,
        ⟨5, ItemState.Removed, 2⟩, ⟨5, ItemState.Neutral, 3⟩] := by
  have h := (sync_removed_branch (⟨5, ItemState.Removed, 0⟩ : Item Nat) rfl
      ⟨[⟨3, ItemState.Neutral, 0⟩, ⟨5, ItemState.Removed, 1⟩,
        ⟨5, ItemState.Neutral, 2⟩, ⟨5, ItemState.Neutral, 3⟩], true⟩ []).2.1
  have hj : (2 : Nat) <
      ([⟨3, ItemState.Neutral, 0⟩, ⟨5, ItemState.Removed, 1⟩,
        ⟨5, ItemState.Neutral, 2⟩, ⟨5, ItemState.Neutral, 3⟩] : List (Item Nat)).length := by
    simp
  have hm := h 2 hj (by exact ⟨rfl, by simp⟩)
  have h2 := hm (fun k hk1 hk2 => by
    interval_cases k
    · simp [Item.ignore_state_eq]
    · simp [Item.ignore_state_eq])
  rw [h2]
  rfl

/-- C4.  `sync` hits a panic (modelled as `none`) exactly when both lists or
neither list is flagged as server; when exactly one is a server the panic
branches are unreachable and `sync` returns a result. -/
theorem sync_panic_iff {α : Type} [DecidableEq α] (a b : MtcList α) :
    (a.is_server = b.is_server → a.sync b = none) ∧
    (a.is_server ≠ b.is_server → ∃ p, a.sync b = some p) := by
  constructor
  · intro h
    cases hb : b.is_server
    · rw [hb] at h
      simp [MtcList.sync, h, hb]
    · rw [hb] at h
      simp [MtcList.sync, h, hb]
  · intro h
    cases ha : a.is_server <;> cases hb : b.is_server
    · rw [ha, hb] at h; exact absurd rfl h
    · exact ⟨_, MtcList.sync_eq_client a b ha hb⟩
    · exact ⟨_, MtcList.sync_eq_server a b ha hb⟩
    · rw [ha, hb] at h; exact absurd rfl h

/-- Witness for C4 at concrete inputs: two servers panic, a client/server
pair completes. -/
theorem sync_panic_iff_witness :
    (MtcList.sync (⟨[], true⟩ : MtcList Nat) ⟨[], true⟩ = none) ∧
    (∃ p, MtcList.sync (⟨[], false⟩ : MtcList Nat) ⟨[], true⟩ = some p) :=
  ⟨(sync_panic_iff (⟨[], true⟩ : MtcList Nat) ⟨[], true⟩).1 rfl,
    (sync_panic_iff (⟨[], false⟩ : MtcList Nat) ⟨[], true⟩).2 (by decide)⟩

/-- C6.  `mark_removed id` returns an error exactly when `id` is out of
bounds, or (client list only) the item at `id` is already `Removed`; whenever
it errors the list is returned completely unchanged. -/
theorem mark_removed_spec {α : Type} (l : MtcList α) (id : Nat) :
    ((∃ s, (l.mark_removed id).1 = Except.error s) ↔
      (l.items.length ≤ id ∨
        (l.is_server = false ∧
          ∃ it, l.items[id]? = some it ∧ it.state = ItemState.Removed))) ∧
    (∀ s, (l.mark_removed id).1 = Except.error s → (l.mark_removed id).2 = l) := by
  rcases hget : l.items[id]? with - | it
  · have hlen : l.items.length ≤ id := by
      simpa using List.getElem?_eq_none_iff.mp hget
    have hval : l.mark_removed id = (Except.error "No item with the given id found.", l) := by
      simp [MtcList.mark_removed, hget]
    rw [hval]
    exact ⟨⟨fun _ => Or.inl hlen, fun _ => ⟨_, rfl⟩⟩, fun s _ => rfl⟩
  · have hlt : id < l.items.length := (List.getElem?_eq_some_iff.mp hget).1
    cases hsrv : l.is_server
    · by_cases hst : it.state = ItemState.Removed
      · have hval : l.mark_removed id =
            (Except.error "No item with the given id found.", l) := by
          simp [MtcList.mark_removed, hget, hsrv, hst]
        rw [hval]
        exact ⟨⟨fun _ => Or.inr ⟨rfl, it, rfl, hst⟩, fun _ => ⟨_, rfl⟩⟩, fun s _ => rfl⟩
      · have hval : (l.mark_removed id).1 = Except.ok () := by
          simp [MtcList.mark_removed, hget, hsrv, hst]
        rw [hval]
        refine ⟨⟨fun h => ?_, fun h => ?_⟩, fun s hs => by cases hs⟩
        · obtain ⟨s, hs⟩ := h
          cases hs
        · rcases h with hlen | ⟨-, it2, hit2, hst2⟩
          · omega
          · injection hit2 with h12
            subst h12
            exact absurd hst2 hst
    · have hval : (l.mark_removed id).1 = Except.ok () := by
        simp [MtcList.mark_removed, hget, hsrv]
      rw [hval]
      refine ⟨⟨fun h => ?_, fun h => ?_⟩, fun s hs => by cases hs⟩
      · obtain ⟨s, hs⟩ := h
        cases hs
      · rcases h with hlen | ⟨hf, -⟩
        · omega
        · cases hf

/-- Witness for C6 at a concrete input: a client list whose only item is
already `Removed`; `mark_removed 0` errors and leaves the list unchanged. -/
theorem mark_removed_spec_witness :
    (∃ s, ((⟨[⟨3, ItemState.Removed, 0⟩], false⟩ : MtcList Nat).mark_removed 0).1 =
      Except.error s) ∧
    (((⟨[⟨3, ItemState.Removed, 0⟩], false⟩ : MtcList Nat).mark_removed 0).2 =
      ⟨[⟨3, ItemState.Removed, 0⟩], false⟩) := by
  have h := mark_removed_spec (⟨[⟨3, ItemState.Removed, 0⟩], false⟩ : MtcList Nat) 0
  have herr : ∃ s, ((⟨[⟨3, ItemState.Removed, 0⟩], false⟩ : MtcList Nat).mark_removed 0).1 =
      Except.error s :=
    h.1.mpr (Or.inr ⟨rfl, ⟨3, ItemState.Removed, 0⟩, rfl, rfl⟩)
  obtain ⟨s, hs⟩ := herr
  exact ⟨⟨s, hs⟩, h.2 s hs⟩

/-- C10.  Immediately after `add`, the returned id is a live handle: on any
list (client or server), `get_by_id` at that id returns an item that is
content-equal (`ignore_state_eq`) to the item passed to `add`. -/
theorem add_get_by_id {α : Type} (l : MtcList α) (x : Item α) :
    ∃ y, ((l.add x).2).get_by_id (l.add x).1 = some y ∧ y.ignore_state_eq x := by
  refine ⟨{ x with
      state := if l.is_server then ItemState.Neutral else ItemState.New
      id := l.items.length }, ?_, rfl⟩
  have hconcat :
      ((l.add x).2).items[(l.items.length : Nat)]? =
        some { x with
          state := if l.is_server then ItemState.Neutral else ItemState.New
          id := l.items.length } := by
    show (l.items ++ [_])[l.items.length]? = _
    rw [List.getElem?_concat_length]
  show (match ((l.add x).2).items[(l.add x).1]? with
    | some i => if i.state ≠ ItemState.Removed then some i else none
    | none => none) = _
  rw [show (l.add x).1 = l.items.length from rfl, hconcat]
  cases hs : l.is_server <;> simp [hs]

lemma not_expired_of_mem_after_sweep {α : Type} (l : MtcList α) (exp : α → Bool)
    (x : Item α) (hx : x ∈ ((l.remove_expired exp).sync_self).itemsList) :
    exp x.content = false := by
  have hx2 : x ∈ ((l.remove_expired exp).sync_self).items := List.mem_of_mem_filter hx
  have hc : x.content ∈ ((l.remove_expired exp).sync_self).items.map Item.content :=
    List.mem_map_of_mem Item.content hx2
  rw [MtcList.sync_self_map_content] at hc
  obtain ⟨y, hy, hyc⟩ := List.mem_map.mp hc
  have hy2 := List.mem_filter.mp hy
  obtain ⟨z, hz, hzy⟩ := List.mem_map.mp hy2.1
  have hylive : y.state ≠ ItemState.Removed := by simpa using hy2.2
  by_cases hexp : exp z.content
  · exfalso
    rw [if_pos hexp] at hzy
    apply hylive
    rw [← hzy]
  · rw [if_neg hexp] at hzy
    rw [← hyc, ← hzy]
    simpa using hexp

/-- C8.  `expired()` is identically false on `Todo` and `Task`; on an `Event`
it is true exactly when the event's date is more than 3 days before the
evaluation date (exactly 3 days before is not expired); and after
`remove_expired` followed by `sync_self`, no event more than 3 days in the
past is left in `items()`. -/
theorem expired_spec :
    (∀ t : Mtc.Todo, Mtc.Todo.expired t = false) ∧
    (∀ t : Mtc.Task, Mtc.Task.expired t = false) ∧
    (∀ (today : Int) (e : Mtc.Event), Mtc.Event.expired today e = true ↔ 3 < today - e.date) ∧
    (∀ (today : Int) (e : Mtc.Event), today - e.date = 3 → Mtc.Event.expired today e = false) ∧
    (∀ (l : MtcList Mtc.Event) (today : Int) (x : Item Mtc.Event),
      x ∈ ((l.remove_expired (Mtc.Event.expired today)).sync_self).itemsList →
      ¬3 < today - x.content.date) := by
  refine ⟨fun t => rfl, fun t => rfl, ?_, ?_, ?_⟩
  · intro today e
    simp only [Mtc.Event.expired, decide_eq_true_eq]
    omega
  · intro today e h
    simp only [Mtc.Event.expired, decide_eq_false_iff_not]
    omega
  · intro l today x hx
    have h := not_expired_of_mem_after_sweep l (Mtc.Event.expired today) x hx
    simp only [Mtc.Event.expired, decide_eq_false_iff_not] at h
    omega

/-- Witness for C8 at concrete inputs: an event 10 days old is expired, one
exactly 3 days old is not, and an unexpired event survives the sweep with its
date within 3 days. -/
theorem expired_spec_witness :
    Mtc.Event.expired 10 ⟨"p", 0⟩ = true ∧
    Mtc.Event.expired 10 ⟨"p", 7⟩ = false ∧
    ¬(3 : Int) < 10 - (⟨⟨"p", 8⟩, ItemState.Neutral, 0⟩ : Item Mtc.Event).content.date := by
  refine ⟨(expired_spec.2.2.1 10 ⟨"p", 0⟩).mpr (by decide),
    expired_spec.2.2.2.1 10 ⟨"p", 7⟩ (by decide), ?_⟩
  exact expired_spec.2.2.2.2 ⟨[⟨⟨"p", 8⟩, ItemState.Neutral, 0⟩], false⟩ 10
    ⟨⟨"p", 8⟩, ItemState.Neutral, 0⟩ (List.mem_singleton.mpr rfl)

/-- C9.  In overwrite mode `sync_remote` skips the fetch and stores the
client list after `sync_self` — but still flagged `is_server = false`,
whereas `clone_to_server` (the behaviour the claim describes, and the one
the source's own TODO comment asks for) would store it with
`is_server = true`.  Evaluated at a concrete client list. -/
theorem sync_remote_overwrite_not_server :
    sync_remote (⟨[⟨7, ItemState.New, 0⟩], false⟩ : MtcList Nat) (MtcList.new true) true =
      some (⟨[⟨7, ItemState.Neutral, 0⟩], false⟩, ⟨[⟨7, ItemState.Neutral, 0⟩], false⟩) ∧
    (⟨[⟨7, ItemState.New, 0⟩], false⟩ : MtcList Nat).clone_to_server =
      ⟨[⟨7, ItemState.Neutral, 0⟩], true⟩ := by
  constructor <;> rfl

lemma applyOp_neutral {α : Type} [DecidableEq α] (l : MtcList α) (op : Op α)
    (hsrv : l.is_server = true) (hn : ∀ x ∈ l.items, x.state = ItemState.Neutral)
    (hop : op.isRemoveExpired = false) :
    (applyOp l op).is_server = true ∧
    ∀ x ∈ (applyOp l op).items, x.state = ItemState.Neutral := by
  cases op with
  | add it =>
    refine ⟨hsrv, ?_⟩
    intro x hx
    have hx2 : x ∈ l.items ++
        [{ it with
          state := if l.is_server then ItemState.Neutral else ItemState.New
          id := l.items.length }] := hx
    rcases List.mem_append.mp hx2 with hx3 | hx3
    · exact hn x hx3
    · rw [List.mem_singleton] at hx3
      subst hx3
      simp [hsrv]
  | markRemoved id =>
    simp only [applyOp]
    rcases hget : l.items[id]? with - | it
    · have hval : (l.mark_removed id).2 = l := by
        simp [MtcList.mark_removed, hget]
      rw [hval]
      exact ⟨hsrv, hn⟩
    · have hval : (l.mark_removed id).2 =
          MtcList.map_indices_to_ids { l with items := l.items.eraseIdx id } := by
        simp [MtcList.mark_removed, hget, hsrv]
      rw [hval]
      refine ⟨hsrv, ?_⟩
      intro x hx
      obtain ⟨y, hy, hxy⟩ := MtcList.setIds_states 0 _ x hx
      rw [hxy]
      exact hn y (List.mem_of_mem_eraseIdx hy)
  | removeExpired exp => cases hop
  | syncSelf =>
    simp only [applyOp]
    exact ⟨hsrv, MtcList.sync_self_states l⟩
  | syncAsSelf other =>
    simp only [applyOp]
    cases hos : other.is_server
    · have hshape := MtcList.sync_eq_server l other hsrv hos
      rw [hshape]
      constructor
      · rw [MtcList.sync_self_is_server, MtcList.syncStep1_is_server]
        exact hsrv
      · exact MtcList.sync_self_states _
    · have hnone : l.sync other = none := by
        simp [MtcList.sync, hsrv, hos]
      rw [hnone]
      exact ⟨hsrv, hn⟩
  | syncAsOther other =>
    simp only [applyOp]
    cases hos : other.is_server
    · have hshape := MtcList.sync_eq_client other l hos hsrv
      rw [hshape]
      constructor
      · rw [MtcList.sync_self_is_server, MtcList.syncStep1_is_server]
        exact hsrv
      · exact MtcList.sync_self_states _
    · have hnone : other.sync l = none := by
        simp [MtcList.sync, hsrv, hos]
      rw [hnone]
      exact ⟨hsrv, hn⟩

lemma applyOps_neutral {α : Type} [DecidableEq α] :
    ∀ (ops : List (Op α)) (l : MtcList α),
      (∀ op ∈ ops, op.isRemoveExpired = false) →
      l.is_server = true → (∀ x ∈ l.items, x.state = ItemState.Neutral) →
      (applyOps l ops).is_server = true ∧
      ∀ x ∈ (applyOps l ops).items, x.state = ItemState.Neutral := by
  intro ops
  induction ops with
  | nil => exact fun l _ h1 h2 => ⟨h1, h2⟩
  | cons op rest ih =>
    intro l hops h1 h2
    have h3 := applyOp_neutral l op h1 h2 (hops op (by simp))
    exact ih (applyOp l op) (fun o ho => hops o (by simp [ho])) h3.1 h3.2

/-- C7 (amended).  Starting from the empty server list, any sequence of the
public operations `add`, `mark_removed`, `sync_self` and `sync` (with the
list in either argument position) — i.e. any operation sequence not
containing `remove_expired` — leaves every item of the server list in state
`Neutral`. -/
theorem server_ops_all_neutral {α : Type} [DecidableEq α] (ops : List (Op α))
    (hops : ∀ op ∈ ops, op.isRemoveExpired = false) :
    ∀ x ∈ (applyOps (MtcList.new true) ops).items, x.state = ItemState.Neutral :=
  (applyOps_neutral ops (MtcList.new true) hops rfl (by simp [MtcList.new])).2

/-- Witness for C7's amended theorem: after `add` on the empty server the
single resulting item is `Neutral`. -/
theorem server_ops_all_neutral_witness :
    (⟨(5 : Nat), ItemState.Neutral, 0⟩ : Item Nat).state = ItemState.Neutral :=
  server_ops_all_neutral [Op.add ⟨5, ItemState.New, 0⟩]
    (fun op hop => by
      rw [List.mem_singleton] at hop
      subst hop
      rfl)
    ⟨5, ItemState.Neutral, 0⟩ (List.mem_singleton.mpr rfl)

/-- Counterexample for C7 as stated: with `remove_expired` among the allowed
operations the invariant fails — adding an expired event to a server list
and running `remove_expired` leaves an item in state `Removed`. -/
theorem server_ops_all_neutral_cx :
    ¬∀ x ∈ (applyOps (MtcList.new true)
        [Op.add ⟨(⟨"party", 0⟩ : Mtc.Event), ItemState.Neutral, 0⟩,
          Op.removeExpired (Mtc.Event.expired 10)]).items,
      x.state = ItemState.Neutral := by
  intro h
  have h2 := h ⟨⟨"party", 0⟩, ItemState.Removed, 0⟩ (List.mem_singleton.mpr rfl)
  cases h2

/-! ## Relational analysis of the two sync passes (for C1 and C2) -/

namespace MtcList

variable {α : Type}

/-- Contents of the client items in state `New`. -/
def newContents (xs : List (Item α)) : List α :=
  (xs.filter fun it => decide (it.state = ItemState.New)).map Item.content

/-- Contents of the client items in state `Removed`. -/
def removedContents (xs : List (Item α)) : List α :=
  (xs.filter fun it => decide (it.state = ItemState.Removed)).map Item.content

@[simp] lemma newContents_nil : newContents ([] : List (Item α)) = [] := rfl

@[simp] lemma removedContents_nil : removedContents ([] : List (Item α)) = [] := rfl

lemma newContents_cons (it : Item α) (rest : List (Item α)) :
    newContents (it :: rest) =
      if it.state = ItemState.New then it.content :: newContents rest
      else newContents rest := by
  by_cases h : it.state = ItemState.New <;> simp [newContents, List.filter_cons, h]

lemma removedContents_cons (it : Item α) (rest : List (Item α)) :
    removedContents (it :: rest) =
      if it.state = ItemState.Removed then it.content :: removedContents rest
      else removedContents rest := by
  by_cases h : it.state = ItemState.Removed <;>
    simp [removedContents, List.filter_cons, h]

@[simp] lemma syncStep1_nil [DecidableEq α] (srv : MtcList α) :
    syncStep1 srv ([] : List (Item α)) = ([], srv) := rfl

lemma syncStep1_cons_removed [DecidableEq α] (srv : MtcList α) (it : Item α)
    (rest : List (Item α)) (h : it.state = ItemState.Removed) :
    (syncStep1 srv (it :: rest)).1 =
      it :: (syncStep1 { srv with items := removeFirstMatch it srv.items } rest).1 ∧
    (syncStep1 srv (it :: rest)).2 =
      (syncStep1 { srv with items := removeFirstMatch it srv.items } rest).2 := by
  constructor <;> (simp only [syncStep1]; rw [if_pos h])

lemma syncStep1_cons_new [DecidableEq α] (srv : MtcList α) (it : Item α)
    (rest : List (Item α)) (h : it.state = ItemState.New) :
    (syncStep1 srv (it :: rest)).1 = it :: (syncStep1 (srv.add it).2 rest).1 ∧
    (syncStep1 srv (it :: rest)).2 = (syncStep1 (srv.add it).2 rest).2 := by
  have h1 : ¬it.state = ItemState.Removed := by rw [h]; intro hh; cases hh
  constructor <;> (simp only [syncStep1]; rw [if_neg h1, if_pos h])

lemma syncStep1_cons_neutral_mem [DecidableEq α] (srv : MtcList α) (it : Item α)
    (rest : List (Item α)) (h : it.state = ItemState.Neutral)
    (hex : ∃ e ∈ srv.items, e.ignore_state_eq it) :
    (syncStep1 srv (it :: rest)).1 = it :: (syncStep1 srv rest).1 ∧
    (syncStep1 srv (it :: rest)).2 = (syncStep1 srv rest).2 := by
  have h1 : ¬it.state = ItemState.Removed := by rw [h]; intro hh; cases hh
  have h2 : ¬it.state = ItemState.New := by rw [h]; intro hh; cases hh
  constructor <;> (simp only [syncStep1]; rw [if_neg h1, if_neg h2, if_pos hex])

lemma syncStep1_cons_neutral_not_mem [DecidableEq α] (srv : MtcList α) (it : Item α)
    (rest : List (Item α)) (h : it.state = ItemState.Neutral)
    (hex : ¬∃ e ∈ srv.items, e.ignore_state_eq it) :
    (syncStep1 srv (it :: rest)).1 =
      it.set_state ItemState.Removed :: (syncStep1 srv rest).1 ∧
    (syncStep1 srv (it :: rest)).2 = (syncStep1 srv rest).2 := by
  have h1 : ¬it.state = ItemState.Removed := by rw [h]; intro hh; cases hh
  have h2 : ¬it.state = ItemState.New := by rw [h]; intro hh; cases hh
  constructor <;> (simp only [syncStep1]; rw [if_neg h1, if_neg h2, if_neg hex])

@[simp] lemma syncStep2_nil [DecidableEq α] (cl : MtcList α) :
    syncStep2 cl ([] : List (Item α)) = cl := rfl

lemma syncStep2_cons_dead [DecidableEq α] (cl : MtcList α) (it : Item α)
    (rest : List (Item α)) (h : it.state = ItemState.Removed) :
    syncStep2 cl (it :: rest) = syncStep2 cl rest := by
  simp only [syncStep2]
  rw [if_neg (fun hh => hh h)]

lemma syncStep2_cons_present [DecidableEq α] (cl : MtcList α) (it : Item α)
    (rest : List (Item α)) (h : it.state ≠ ItemState.Removed)
    (hex : ∃ e ∈ cl.items, e.ignore_state_eq it ∧ e.state ≠ ItemState.Removed) :
    syncStep2 cl (it :: rest) = syncStep2 cl rest := by
  simp only [syncStep2]
  rw [if_pos h, if_pos hex]

lemma syncStep2_cons_add [DecidableEq α] (cl : MtcList α) (it : Item α)
    (rest : List (Item α)) (h : it.state ≠ ItemState.Removed)
    (hex : ¬∃ e ∈ cl.items, e.ignore_state_eq it ∧ e.state ≠ ItemState.Removed) :
    syncStep2 cl (it :: rest) = syncStep2 (cl.add it).2 rest := by
  simp only [syncStep2]
  rw [if_pos h, if_neg hex]

lemma removeFirstMatch_map_content [DecidableEq α] (t : Item α) (l : List (Item α)) :
    (removeFirstMatch t l).map Item.content = l.map Item.content := by
  induction l with
  | nil => rfl
  | cons e rest ih =>
    simp only [removeFirstMatch]
    split
    · simp
    · simp [ih]

lemma mem_removeFirstMatch [DecidableEq α] (t : Item α) (l : List (Item α)) :
    ∀ y ∈ removeFirstMatch t l,
      y ∈ l ∨ (y.state = ItemState.Removed ∧ y.content = t.content) := by
  induction l with
  | nil => simp [removeFirstMatch]
  | cons e rest ih =>
    intro y hy
    simp only [removeFirstMatch] at hy
    by_cases hc : e.ignore_state_eq t ∧ e.state ≠ ItemState.Removed
    · rw [if_pos hc] at hy
      rcases List.mem_cons.mp hy with rfl | hy2
      · exact Or.inr ⟨rfl, hc.1⟩
      · exact Or.inl (List.mem_cons_of_mem e hy2)
    · rw [if_neg hc] at hy
      rcases List.mem_cons.mp hy with rfl | hy2
      · exact Or.inl (List.mem_cons_self _ _)
      · rcases ih y hy2 with h | h
        · exact Or.inl (List.mem_cons_of_mem _ h)
        · exact Or.inr h

lemma syncStep1_map_content [DecidableEq α] :
    ∀ (cs : List (Item α)) (srv : MtcList α),
      ((syncStep1 srv cs).2).items.map Item.content =
        srv.items.map Item.content ++ newContents cs := by
  intro cs
  induction cs with
  | nil => intro srv; simp
  | cons it rest ih =>
    intro srv
    cases hst : it.state with
    | Removed =>
      rw [(syncStep1_cons_removed srv it rest hst).2, ih]
      simp [removeFirstMatch_map_content, newContents_cons, hst]
    | New =>
      rw [(syncStep1_cons_new srv it rest hst).2, ih]
      simp [MtcList.add, newContents_cons, hst]
    | Neutral =>
      by_cases hex : ∃ e ∈ srv.items, e.ignore_state_eq it
      · rw [(syncStep1_cons_neutral_mem srv it rest hst hex).2, ih]
        simp [newContents_cons, hst]
      · rw [(syncStep1_cons_neutral_not_mem srv it rest hst hex).2, ih]
        simp [newContents_cons, hst]

lemma syncStep1_client_map_content [DecidableEq α] :
    ∀ (cs : List (Item α)) (srv : MtcList α),
      (syncStep1 srv cs).1.map Item.content = cs.map Item.content := by
  intro cs
  induction cs with
  | nil => intro srv; simp
  | cons it rest ih =>
    intro srv
    cases hst : it.state with
    | Removed =>
      rw [(syncStep1_cons_removed srv it rest hst).1]
      simp [ih]
    | New =>
      rw [(syncStep1_cons_new srv it rest hst).1]
      simp [ih]
    | Neutral =>
      by_cases hex : ∃ e ∈ srv.items, e.ignore_state_eq it
      · rw [(syncStep1_cons_neutral_mem srv it rest hst hex).1]
        simp [ih]
      · rw [(syncStep1_cons_neutral_not_mem srv it rest hst hex).1]
        simp [ih, Item.set_state]

/-- Any `Removed` server item after pass 1 either was already `Removed` (a
content-equal witness existed in the incoming server list) or its content is
among the contents of the `Removed` client items. -/
lemma syncStep1_removed_src [DecidableEq α] :
    ∀ (cs : List (Item α)) (srv : MtcList α) (x : Item α),
      x ∈ ((syncStep1 srv cs).2).items → x.state = ItemState.Removed →
      (∃ y ∈ srv.items, y.content = x.content ∧ y.state = ItemState.Removed) ∨
      x.content ∈ removedContents cs := by
  intro cs
  induction cs with
  | nil =>
    intro srv x hx hst
    exact Or.inl ⟨x, hx, rfl, hst⟩
  | cons it rest ih =>
    intro srv x hx hst
    cases hit : it.state with
    | Removed =>
      rw [(syncStep1_cons_removed srv it rest hit).2] at hx
      rcases ih _ x hx hst with ⟨y, hy, hyc, hys⟩ | h
      · rcases mem_removeFirstMatch it srv.items y hy with hy2 | ⟨-, hy2⟩
        · exact Or.inl ⟨y, hy2, hyc, hys⟩
        · refine Or.inr ?_
          rw [removedContents_cons, if_pos hit]
          rw [← hyc, hy2]
          exact List.mem_cons_self _ _
      · refine Or.inr ?_
        rw [removedContents_cons, if_pos hit]
        exact List.mem_cons_of_mem _ h
    | New =>
      rw [(syncStep1_cons_new srv it rest hit).2] at hx
      rcases ih _ x hx hst with ⟨y, hy, hyc, hys⟩ | h
      · have hy2 : y ∈ srv.items ++ [_] := hy
        rcases List.mem_append.mp hy2 with hy3 | hy3
        · exact Or.inl ⟨y, hy3, hyc, hys⟩
        · exfalso
          rw [List.mem_singleton] at hy3
          subst hy3
          by_cases hsrv : srv.is_server = true <;> simp [hsrv] at hys
      · refine Or.inr ?_
        rw [removedContents_cons, if_neg (by rw [hit]; intro hh; cases hh)]
        exact h
    | Neutral =>
      have hne : ¬it.state = ItemState.Removed := by rw [hit]; intro hh; cases hh
      by_cases hex : ∃ e ∈ srv.items, e.ignore_state_eq it
      · rw [(syncStep1_cons_neutral_mem srv it rest hit hex).2] at hx
        rcases ih srv x hx hst with h | h
        · exact Or.inl h
        · refine Or.inr ?_
          rw [removedContents_cons, if_neg hne]
          exact h
      · rw [(syncStep1_cons_neutral_not_mem srv it rest hit hex).2] at hx
        rcases ih srv x hx hst with h | h
        · exact Or.inl h
        · refine Or.inr ?_
          rw [removedContents_cons, if_neg hne]
          exact h

/-- Pass-1 effect on the client items: a `New` survivor comes from a `New`
input item of the same content; a `Neutral` survivor comes from a `Neutral`
input item of the same content AND its content occurs in the final pass-1
server list. -/
lemma syncStep1_client_states [DecidableEq α] :
    ∀ (cs : List (Item α)) (srv : MtcList α) (x : Item α),
      x ∈ (syncStep1 srv cs).1 →
      (x.state = ItemState.New →
        ∃ y ∈ cs, y.state = ItemState.New ∧ y.content = x.content) ∧
      (x.state = ItemState.Neutral →
        (∃ y ∈ cs, y.state = ItemState.Neutral ∧ y.content = x.content) ∧
        x.content ∈ ((syncStep1 srv cs).2).items.map Item.content) := by
  intro cs
  induction cs with
  | nil =>
    intro srv x hx
    simp at hx
  | cons it rest ih =>
    intro srv x hx
    cases hit : it.state with
    | Removed =>
      rw [(syncStep1_cons_removed srv it rest hit).1] at hx
      rcases List.mem_cons.mp hx with rfl | hx2
      · constructor
        · intro hn; rw [hit] at hn; cases hn
        · intro hn; rw [hit] at hn; cases hn
      · have hih := ih _ x hx2
        rw [(syncStep1_cons_removed srv it rest hit).2]
        constructor
        · intro hn
          obtain ⟨y, hy, hys, hyc⟩ := hih.1 hn
          exact ⟨y, List.mem_cons_of_mem _ hy, hys, hyc⟩
        · intro hn
          obtain ⟨⟨y, hy, hys, hyc⟩, hmem⟩ := hih.2 hn
          exact ⟨⟨y, List.mem_cons_of_mem _ hy, hys, hyc⟩, hmem⟩
    | New =>
      rw [(syncStep1_cons_new srv it rest hit).1] at hx
      rw [(syncStep1_cons_new srv it rest hit).2]
      rcases List.mem_cons.mp hx with rfl | hx2
      · constructor
        · intro _
          exact ⟨x, List.mem_cons_self _ _, hit, rfl⟩
        · intro hn; rw [hit] at hn; cases hn
      · have hih := ih _ x hx2
        constructor
        · intro hn
          obtain ⟨y, hy, hys, hyc⟩ := hih.1 hn
          exact ⟨y, List.mem_cons_of_mem _ hy, hys, hyc⟩
        · intro hn
          obtain ⟨⟨y, hy, hys, hyc⟩, hmem⟩ := hih.2 hn
          exact ⟨⟨y, List.mem_cons_of_mem _ hy, hys, hyc⟩, hmem⟩
    | Neutral =>
      by_cases hex : ∃ e ∈ srv.items, e.ignore_state_eq it
      · rw [(syncStep1_cons_neutral_mem srv it rest hit hex).1] at hx
        rw [(syncStep1_cons_neutral_mem srv it rest hit hex).2]
        rcases List.mem_cons.mp hx with rfl | hx2
        · constructor
          · intro hn; rw [hit] at hn; cases hn
          · intro _
            refine ⟨⟨x, List.mem_cons_self _ _, hit, rfl⟩, ?_⟩
            obtain ⟨e, he, hec⟩ := hex
            rw [syncStep1_map_content]
            refine List.mem_append_left _ ?_
            rw [show x.content = e.content from (hec : e.content = x.content).symm]
            exact List.mem_map_of_mem Item.content he
        · have hih := ih srv x hx2
          constructor
          · intro hn
            obtain ⟨y, hy, hys, hyc⟩ := hih.1 hn
            exact ⟨y, List.mem_cons_of_mem _ hy, hys, hyc⟩
          · intro hn
            obtain ⟨⟨y, hy, hys, hyc⟩, hmem⟩ := hih.2 hn
            exact ⟨⟨y, List.mem_cons_of_mem _ hy, hys, hyc⟩, hmem⟩
      · rw [(syncStep1_cons_neutral_not_mem srv it rest hit hex).1] at hx
        rw [(syncStep1_cons_neutral_not_mem srv it rest hit hex).2]
        rcases List.mem_cons.mp hx with rfl | hx2
        · constructor
          · intro hn; cases hn
          · intro hn; cases hn
        · have hih := ih srv x hx2
          constructor
          · intro hn
            obtain ⟨y, hy, hys, hyc⟩ := hih.1 hn
            exact ⟨y, List.mem_cons_of_mem _ hy, hys, hyc⟩
          · intro hn
            obtain ⟨⟨y, hy, hys, hyc⟩, hmem⟩ := hih.2 hn
            exact ⟨⟨y, List.mem_cons_of_mem _ hy, hys, hyc⟩, hmem⟩

lemma mem_filter_live {xs : List (Item α)} {y : Item α} :
    y ∈ (xs.filter fun it => decide (it.state ≠ ItemState.Removed)) ↔
      y ∈ xs ∧ y.state ≠ ItemState.Removed := by
  simp [List.mem_filter]

lemma mem_removedContents {xs : List (Item α)} {v : α} :
    v ∈ removedContents xs ↔
      ∃ w ∈ xs, w.state = ItemState.Removed ∧ w.content = v := by
  simp [removedContents, List.mem_map, List.mem_filter, and_assoc]

lemma mem_newContents {xs : List (Item α)} {v : α} :
    v ∈ newContents xs ↔
      ∃ w ∈ xs, w.state = ItemState.New ∧ w.content = v := by
  simp [newContents, List.mem_map, List.mem_filter, and_assoc]

/-- Pass 2 only appends: the result is the incoming client items followed by
clones of live server items. -/
lemma syncStep2_append [DecidableEq α] :
    ∀ (sv : List (Item α)) (cl : MtcList α),
      ∃ adds, (syncStep2 cl sv).items = cl.items ++ adds ∧
        ∀ x ∈ adds, x.state ≠ ItemState.Removed ∧
          ∃ z ∈ sv, z.state ≠ ItemState.Removed ∧ z.content = x.content := by
  intro sv
  induction sv with
  | nil => exact fun cl => ⟨[], by simp, by simp⟩
  | cons it rest ih =>
    intro cl
    by_cases hd : it.state = ItemState.Removed
    · rw [syncStep2_cons_dead cl it rest hd]
      obtain ⟨adds, h1, h2⟩ := ih cl
      refine ⟨adds, h1, fun x hx => ?_⟩
      obtain ⟨ha, z, hz, hzs, hzc⟩ := h2 x hx
      exact ⟨ha, z, List.mem_cons_of_mem _ hz, hzs, hzc⟩
    · by_cases hex : ∃ e ∈ cl.items, e.ignore_state_eq it ∧ e.state ≠ ItemState.Removed
      · rw [syncStep2_cons_present cl it rest hd hex]
        obtain ⟨adds, h1, h2⟩ := ih cl
        refine ⟨adds, h1, fun x hx => ?_⟩
        obtain ⟨ha, z, hz, hzs, hzc⟩ := h2 x hx
        exact ⟨ha, z, List.mem_cons_of_mem _ hz, hzs, hzc⟩
      · rw [syncStep2_cons_add cl it rest hd hex]
        obtain ⟨adds, h1, h2⟩ := ih (cl.add it).2
        have hitems : (cl.add it).2.items = cl.items ++
            [{ it with
              state := if cl.is_server then ItemState.Neutral else ItemState.New
              id := cl.items.length }] := rfl
        refine ⟨{ it with
            state := if cl.is_server then ItemState.Neutral else ItemState.New
            id := cl.items.length } :: adds, ?_, ?_⟩
        · rw [h1, hitems, List.append_assoc]
          rfl
        · intro x hx
          rcases List.mem_cons.mp hx with rfl | hx2
          · refine ⟨?_, it, List.mem_cons_self _ _, hd, rfl⟩
            by_cases hsrv : cl.is_server = true <;> simp [hsrv]
          · obtain ⟨ha, z, hz, hzs, hzc⟩ := h2 x hx2
            exact ⟨ha, z, List.mem_cons_of_mem _ hz, hzs, hzc⟩

/-- Every live server item has, after pass 2, a live content-equal item in
the client list. -/
lemma syncStep2_covers [DecidableEq α] :
    ∀ (sv : List (Item α)) (cl : MtcList α) (z : Item α),
      z ∈ sv → z.state ≠ ItemState.Removed →
      ∃ x ∈ (syncStep2 cl sv).items, x.content = z.content ∧
        x.state ≠ ItemState.Removed := by
  intro sv
  induction sv with
  | nil => intro cl z hz; simp at hz
  | cons it rest ih =>
    intro cl z hz hzs
    rcases List.mem_cons.mp hz with rfl | hz2
    · by_cases hex : ∃ e ∈ cl.items, e.ignore_state_eq z ∧ e.state ≠ ItemState.Removed
      · rw [syncStep2_cons_present cl z rest hzs hex]
        obtain ⟨e, he, heq, hes⟩ := hex
        obtain ⟨adds, hadds, -⟩ := syncStep2_append rest cl
        refine ⟨e, ?_, heq, hes⟩
        rw [hadds]
        exact List.mem_append_left _ he
      · rw [syncStep2_cons_add cl z rest hzs hex]
        obtain ⟨adds, hadds, -⟩ := syncStep2_append rest (cl.add z).2
        refine ⟨{ z with
            state := if cl.is_server then ItemState.Neutral else ItemState.New
            id := cl.items.length }, ?_, rfl, ?_⟩
        · rw [hadds]
          refine List.mem_append_left _ ?_
          show _ ∈ cl.items ++ [_]
          exact List.mem_append_right _ (List.mem_singleton.mpr rfl)
        · by_cases hsrv : cl.is_server = true <;> simp [hsrv]
    · by_cases hd : it.state = ItemState.Removed
      · rw [syncStep2_cons_dead cl it rest hd]
        exact ih cl z hz2 hzs
      · by_cases hex : ∃ e ∈ cl.items, e.ignore_state_eq it ∧ e.state ≠ ItemState.Removed
        · rw [syncStep2_cons_present cl it rest hd hex]
          exact ih cl z hz2 hzs
        · rw [syncStep2_cons_add cl it rest hd hex]
          exact ih (cl.add it).2 z hz2 hzs

/-- If every live server item already has a live content-equal client item,
pass 2 changes nothing. -/
lemma syncStep2_no_add [DecidableEq α] :
    ∀ (sv : List (Item α)) (cl : MtcList α),
      (∀ z ∈ sv, z.state ≠ ItemState.Removed →
        ∃ e ∈ cl.items, e.ignore_state_eq z ∧ e.state ≠ ItemState.Removed) →
      syncStep2 cl sv = cl := by
  intro sv
  induction sv with
  | nil => exact fun cl _ => rfl
  | cons it rest ih =>
    intro cl h
    by_cases hd : it.state = ItemState.Removed
    · rw [syncStep2_cons_dead cl it rest hd]
      exact ih cl fun z hz => h z (List.mem_cons_of_mem _ hz)
    · have hex := h it (List.mem_cons_self _ _) hd
      rw [syncStep2_cons_present cl it rest hd hex]
      exact ih cl fun z hz => h z (List.mem_cons_of_mem _ hz)

/-- Pass 2 preserves the property that live client contents are pairwise
distinct. -/
lemma syncStep2_live_nodup [DecidableEq α] :
    ∀ (sv : List (Item α)) (cl : MtcList α),
      (((cl.items.filter fun it => decide (it.state ≠ ItemState.Removed)).map
        Item.content).Nodup) →
      ((((syncStep2 cl sv).items.filter fun it =>
        decide (it.state ≠ ItemState.Removed)).map Item.content).Nodup) := by
  intro sv
  induction sv with
  | nil => exact fun cl h => h
  | cons it rest ih =>
    intro cl h
    by_cases hd : it.state = ItemState.Removed
    · rw [syncStep2_cons_dead cl it rest hd]
      exact ih cl h
    · by_cases hex : ∃ e ∈ cl.items, e.ignore_state_eq it ∧ e.state ≠ ItemState.Removed
      · rw [syncStep2_cons_present cl it rest hd hex]
        exact ih cl h
      · rw [syncStep2_cons_add cl it rest hd hex]
        apply ih
        have hstamped : ((cl.add it).2.items.filter fun x =>
            decide (x.state ≠ ItemState.Removed)) =
            (cl.items.filter fun x => decide (x.state ≠ ItemState.Removed)) ++
              [{ it with
                state := if cl.is_server then ItemState.Neutral else ItemState.New
                id := cl.items.length }] := by
          have hadd : (cl.add it).2.items = cl.items ++
              [{ it with
                state := if cl.is_server then ItemState.Neutral else ItemState.New
                id := cl.items.length }] := rfl
          rw [hadd, List.filter_append]
          congr 1
          have : ((if cl.is_server then ItemState.Neutral else ItemState.New) ≠
              ItemState.Removed) := by
            by_cases hsrv : cl.is_server = true <;> simp [hsrv]
          simp [List.filter_cons, this]
        rw [hstamped, List.map_append]
        rw [List.nodup_append]
        refine ⟨h, by simp, ?_⟩
        intro v hv hv2
        simp only [List.map_cons, List.map_nil, List.mem_singleton] at hv2
        subst hv2
        obtain ⟨e, he, hec⟩ := List.mem_map.mp hv
        have he2 := mem_filter_live.mp he
        exact hex ⟨e, he2.1, hec, he2.2⟩

/-- If every client item is `Neutral` with its content present on the server,
pass 1 is the identity on both lists. -/
lemma syncStep1_all_neutral [DecidableEq α] :
    ∀ (cs : List (Item α)) (srv : MtcList α),
      (∀ x ∈ cs, x.state = ItemState.Neutral ∧
        x.content ∈ srv.items.map Item.content) →
      (syncStep1 srv cs).1 = cs ∧ (syncStep1 srv cs).2 = srv := by
  intro cs
  induction cs with
  | nil => exact fun srv _ => ⟨rfl, rfl⟩
  | cons it rest ih =>
    intro srv h
    have hit := h it (List.mem_cons_self _ _)
    have hex : ∃ e ∈ srv.items, e.ignore_state_eq it := by
      obtain ⟨e, he, hec⟩ := List.mem_map.mp hit.2
      exact ⟨e, he, hec⟩
    have hrec := ih srv fun x hx => h x (List.mem_cons_of_mem _ hx)
    constructor
    · rw [(syncStep1_cons_neutral_mem srv it rest hit.1 hex).1, hrec.1]
    · rw [(syncStep1_cons_neutral_mem srv it rest hit.1 hex).2, hrec.2]

end MtcList

namespace MtcList

variable {α : Type}

/-- Under the server invariant (all `Neutral`) and pairwise-distinct client
contents, any content carried by a live (`New` or `Neutral`) client item that
occurs at all in the pass-1 server list occurs there on a live item. -/
lemma syncStep1_live_witness [DecidableEq α] (c s : MtcList α)
    (hcd : (c.items.map Item.content).Nodup)
    (hsN : ∀ x ∈ s.items, x.state = ItemState.Neutral)
    (y : Item α) (hy : y ∈ c.items) (hys : y.state ≠ ItemState.Removed)
    (hyc : y.content ∈ ((syncStep1 s c.items).2).items.map Item.content) :
    ∃ z ∈ ((syncStep1 s c.items).2).items,
      z.content = y.content ∧ z.state ≠ ItemState.Removed := by
  obtain ⟨z, hz, hzc⟩ := List.mem_map.mp hyc
  by_cases hzs : z.state = ItemState.Removed
  · exfalso
    rcases syncStep1_removed_src c.items s z hz hzs with ⟨w, hw, hwc, hws⟩ | h
    · rw [hsN w hw] at hws
      cases hws
    · rw [hzc] at h
      obtain ⟨w, hw, hws, hwc⟩ := mem_removedContents.mp h
      have hwy : w = y := List.inj_on_of_nodup_map hcd hw hy hwc
      rw [hwy] at hws
      exact hys hws
  · exact ⟨z, hz, hzc, hzs⟩

/-- Every content of a live item of the final client list is a content of a
live item of the final server list. -/
lemma sync_result_sub [DecidableEq α] (c s : MtcList α)
    (hcd : (c.items.map Item.content).Nodup)
    (hsN : ∀ x ∈ s.items, x.state = ItemState.Neutral) :
    ∀ x ∈ ((syncStep2 { c with items := (syncStep1 s c.items).1 }
        ((syncStep1 s c.items).2).items).sync_self).items,
      x.content ∈ (((syncStep1 s c.items).2).sync_self).items.map Item.content := by
  intro x hx
  rw [sync_self_map_content]
  have hxc : x.content ∈ ((syncStep2 { c with items := (syncStep1 s c.items).1 }
      ((syncStep1 s c.items).2).items).items.filter fun it =>
      decide (it.state ≠ ItemState.Removed)).map Item.content := by
    have h0 := List.mem_map_of_mem Item.content hx
    rwa [sync_self_map_content] at h0
  obtain ⟨x0, hx0, hx0c⟩ := List.mem_map.mp hxc
  have hx0m := mem_filter_live.mp hx0
  rw [← hx0c]
  obtain ⟨adds, hadds, haddsP⟩ :=
    syncStep2_append ((syncStep1 s c.items).2).items
      { c with items := (syncStep1 s c.items).1 }
  have hx0i := hx0m.1
  rw [hadds] at hx0i
  rcases List.mem_append.mp hx0i with hx1 | hx1
  · have hx2 : x0 ∈ (syncStep1 s c.items).1 := hx1
    have hcs := syncStep1_client_states c.items s x0 hx2
    cases hxst : x0.state with
    | Removed => exact absurd hxst hx0m.2
    | New =>
      obtain ⟨y, hy, hys, hyc⟩ := hcs.1 hxst
      have hmem : y.content ∈ ((syncStep1 s c.items).2).items.map Item.content := by
        rw [syncStep1_map_content]
        refine List.mem_append_right _ ?_
        exact mem_newContents.mpr ⟨y, hy, hys, rfl⟩
      obtain ⟨z, hz, hzc, hzs⟩ := syncStep1_live_witness c s hcd hsN y hy
        (by rw [hys]; intro hh; cases hh) hmem
      refine List.mem_map.mpr ⟨z, mem_filter_live.mpr ⟨hz, hzs⟩, ?_⟩
      rw [hzc, hyc]
    | Neutral =>
      obtain ⟨⟨y, hy, hys, hyc⟩, hmem⟩ := hcs.2 hxst
      have hmem2 : y.content ∈ ((syncStep1 s c.items).2).items.map Item.content := by
        rw [hyc]
        exact hmem
      obtain ⟨z, hz, hzc, hzs⟩ := syncStep1_live_witness c s hcd hsN y hy
        (by rw [hys]; intro hh; cases hh) hmem2
      refine List.mem_map.mpr ⟨z, mem_filter_live.mpr ⟨hz, hzs⟩, ?_⟩
      rw [hzc, hyc]
  · obtain ⟨-, z, hz, hzs, hzc⟩ := haddsP x0 hx1
    exact List.mem_map.mpr ⟨z, mem_filter_live.mpr ⟨hz, hzs⟩, hzc⟩

/-- Every content of a live item of the final server list is a content of a
live item of the final client list. -/
lemma sync_result_sup [DecidableEq α] (c s : MtcList α) :
    ∀ z ∈ (((syncStep1 s c.items).2).sync_self).items,
      z.content ∈ ((syncStep2 { c with items := (syncStep1 s c.items).1 }
        ((syncStep1 s c.items).2).items).sync_self).items.map Item.content := by
  intro z hz
  have hzc : z.content ∈ (((syncStep1 s c.items).2).items.filter fun it =>
      decide (it.state ≠ ItemState.Removed)).map Item.content := by
    have h0 := List.mem_map_of_mem Item.content hz
    rwa [sync_self_map_content] at h0
  obtain ⟨z0, hz0, hz0c⟩ := List.mem_map.mp hzc
  have hz0m := mem_filter_live.mp hz0
  obtain ⟨x, hx, hxc, hxs⟩ := syncStep2_covers ((syncStep1 s c.items).2).items
    { c with items := (syncStep1 s c.items).1 } z0 hz0m.1 hz0m.2
  rw [sync_self_map_content]
  refine List.mem_map.mpr ⟨x, mem_filter_live.mpr ⟨hx, hxs⟩, ?_⟩
  rw [hxc, hz0c]

/-- A normalized pair (both all-`Neutral` fixed points of `sync_self` with
mutually covering contents) is a fixed point of `sync`. -/
lemma sync_second_identity [DecidableEq α] (c2 s2 : MtcList α)
    (hc2 : c2.is_server = false) (hs2 : s2.is_server = true)
    (hc2n : ∀ x ∈ c2.items, x.state = ItemState.Neutral)
    (hfix1 : c2.sync_self = c2) (hfix2 : s2.sync_self = s2)
    (hsub : ∀ x ∈ c2.items, x.content ∈ s2.items.map Item.content)
    (hsup : ∀ z ∈ s2.items, z.content ∈ c2.items.map Item.content) :
    c2.sync s2 = some (c2, s2) := by
  rw [sync_eq_client c2 s2 hc2 hs2]
  have hq := syncStep1_all_neutral c2.items s2
    (fun x hx => ⟨hc2n x hx, hsub x hx⟩)
  rw [hq.1, hq.2]
  have heta : ({ c2 with items := c2.items } : MtcList α) = c2 := rfl
  rw [heta]
  have hnoadd : syncStep2 c2 s2.items = c2 := by
    apply syncStep2_no_add
    intro z hz hzs
    obtain ⟨e, he, hec⟩ := List.mem_map.mp (hsup z hz)
    refine ⟨e, he, hec, ?_⟩
    rw [hc2n e he]
    intro hh
    cases hh
  rw [hnoadd, hfix1, hfix2]

end MtcList

/-- C2 (amended).  For a client/server pair with exactly one list flagged as
server, the server's items all `Neutral` (its documented between-operations
invariant) and the client's items pairwise content-distinct, `sync` followed
immediately by `sync` again leaves both lists exactly unchanged. -/
theorem sync_idempotent {α : Type} [DecidableEq α] (c s : MtcList α)
    (hc : c.is_server = false) (hs : s.is_server = true)
    (hcd : (c.items.map Item.content).Nodup)
    (hsN : ∀ x ∈ s.items, x.state = ItemState.Neutral) :
    ∃ c2 s2, c.sync s = some (c2, s2) ∧ c2.sync s2 = some (c2, s2) := by
  refine ⟨_, _, MtcList.sync_eq_client c s hc hs, ?_⟩
  apply MtcList.sync_second_identity
  · rw [MtcList.sync_self_is_server, MtcList.syncStep2_is_server]
    exact hc
  · rw [MtcList.sync_self_is_server, MtcList.syncStep1_is_server]
    exact hs
  · exact MtcList.sync_self_states _
  · exact MtcList.sync_self_idem _
  · exact MtcList.sync_self_idem _
  · exact MtcList.sync_result_sub c s hcd hsN
  · exact MtcList.sync_result_sup c s

/-- Witness for C2's amended theorem at a concrete input: client with one
`New` item, empty server. -/
theorem sync_idempotent_witness :
    ∃ c2 s2,
      (⟨[⟨(1 : Nat), ItemState.New, 0⟩], false⟩ : MtcList Nat).sync ⟨[], true⟩ =
        some (c2, s2) ∧ c2.sync s2 = some (c2, s2) :=
  sync_idempotent ⟨[⟨1, ItemState.New, 0⟩], false⟩ ⟨[], true⟩ rfl rfl
    (by simp) (by simp)

/-- Counterexample for C2 as stated: a reachable client list with two
content-equal items (one `New`, one `Removed`) synced against an empty
server.  The first `sync` yields client `[0 Neutral]`, server `[]`; the
second `sync` then removes the item, so the pair is not a fixed point. -/
theorem sync_idempotent_cx :
    (⟨[⟨(0 : Nat), ItemState.New, 0⟩, ⟨0, ItemState.Removed, 1⟩], false⟩ :
        MtcList Nat).sync ⟨[], true⟩ =
      some (⟨[⟨0, ItemState.Neutral, 0⟩], false⟩, ⟨[], true⟩) ∧
    (⟨[⟨(0 : Nat), ItemState.Neutral, 0⟩], false⟩ : MtcList Nat).sync ⟨[], true⟩ =
      some (⟨[], false⟩, ⟨[], true⟩) ∧
    (⟨[⟨(0 : Nat), ItemState.Neutral, 0⟩], false⟩ : MtcList Nat) ≠ ⟨[], false⟩ := by
  refine ⟨by decide, by decide, by decide⟩

/-- C1 (amended).  For a client/server pair with pairwise content-distinct
items within each list, the server's items all `Neutral` and no `New` client
item content-equal to a server item, after `sync` both lists carry the same
multiset of contents, and no content occurs in either output more often than
the maximum of its occurrence counts in the two inputs. -/
theorem sync_no_duplication {α : Type} [DecidableEq α] (c s : MtcList α)
    (hc : c.is_server = false) (hs : s.is_server = true)
    (hcd : (c.items.map Item.content).Nodup)
    (hsd : (s.items.map Item.content).Nodup)
    (hsN : ∀ x ∈ s.items, x.state = ItemState.Neutral)
    (hNew : ∀ x ∈ c.items, x.state = ItemState.New →
      x.content ∉ s.items.map Item.content) :
    ∃ c2 s2, c.sync s = some (c2, s2) ∧
      (c2.items.map Item.content).Perm (s2.items.map Item.content) ∧
      (∀ v, (c2.items.map Item.content).count v ≤
        max ((c.items.map Item.content).count v)
          ((s.items.map Item.content).count v)) ∧
      (∀ v, (s2.items.map Item.content).count v ≤
        max ((c.items.map Item.content).count v)
          ((s.items.map Item.content).count v)) := by
  have hl1nodup : ((((MtcList.syncStep1 s c.items).1).filter fun it =>
      decide (it.state ≠ ItemState.Removed)).map Item.content).Nodup := by
    have hsub : List.Sublist ((((MtcList.syncStep1 s c.items).1).filter fun it =>
        decide (it.state ≠ ItemState.Removed)).map Item.content)
        (((MtcList.syncStep1 s c.items).1).map Item.content) :=
      (List.filter_sublist _).map _
    rw [MtcList.syncStep1_client_map_content] at hsub
    exact hcd.sublist hsub
  have hc2nodup : (((MtcList.syncStep2 { c with items := (MtcList.syncStep1 s c.items).1 }
      ((MtcList.syncStep1 s c.items).2).items).items.filter fun it =>
      decide (it.state ≠ ItemState.Removed)).map Item.content).Nodup :=
    MtcList.syncStep2_live_nodup _ _ hl1nodup
  have hsrv1nodup : (((MtcList.syncStep1 s c.items).2).items.map Item.content).Nodup := by
    rw [MtcList.syncStep1_map_content]
    refine List.Nodup.append hsd ?_ ?_
    · have hsub : List.Sublist (MtcList.newContents c.items)
          (c.items.map Item.content) := (List.filter_sublist _).map _
      exact hcd.sublist hsub
    · intro v hv1 hv2
      obtain ⟨w, hw, hws, hwc⟩ := MtcList.mem_newContents.mp hv2
      have hnot := hNew w hw hws
      rw [hwc] at hnot
      exact hnot hv1
  have hs2nodup : ((((MtcList.syncStep1 s c.items).2).items.filter fun it =>
      decide (it.state ≠ ItemState.Removed)).map Item.content).Nodup := by
    have hsub : List.Sublist ((((MtcList.syncStep1 s c.items).2).items.filter fun it =>
        decide (it.state ≠ ItemState.Removed)).map Item.content)
        (((MtcList.syncStep1 s c.items).2).items.map Item.content) :=
      (List.filter_sublist _).map _
    exact hsrv1nodup.sublist hsub
  have hmem_iff : ∀ v : α,
      v ∈ ((MtcList.syncStep2 { c with items := (MtcList.syncStep1 s c.items).1 }
        ((MtcList.syncStep1 s c.items).2).items).sync_self).items.map Item.content ↔
      v ∈ ((((MtcList.syncStep1 s c.items).2).sync_self).items.map Item.content) := by
    intro v
    constructor
    · intro hv
      obtain ⟨x, hx, hxc⟩ := List.mem_map.mp hv
      rw [← hxc]
      exact MtcList.sync_result_sub c s hcd hsN x hx
    · intro hv
      obtain ⟨z, hz, hzc⟩ := List.mem_map.mp hv
      rw [← hzc]
      exact MtcList.sync_result_sup c s z hz
  have hmem_inputs : ∀ v : α,
      v ∈ ((((MtcList.syncStep1 s c.items).2).sync_self).items.map Item.content) →
      v ∈ c.items.map Item.content ∨ v ∈ s.items.map Item.content := by
    intro v hv
    rw [MtcList.sync_self_map_content] at hv
    have hv2 : v ∈ ((MtcList.syncStep1 s c.items).2).items.map Item.content := by
      obtain ⟨z, hz, hzc⟩ := List.mem_map.mp hv
      have hz2 := MtcList.mem_filter_live.mp hz
      exact List.mem_map.mpr ⟨z, hz2.1, hzc⟩
    rw [MtcList.syncStep1_map_content] at hv2
    rcases List.mem_append.mp hv2 with h | h
    · exact Or.inr h
    · obtain ⟨w, hw, -, hwc⟩ := MtcList.mem_newContents.mp h
      refine Or.inl ?_
      rw [← hwc]
      exact List.mem_map_of_mem Item.content hw
  refine ⟨_, _, MtcList.sync_eq_client c s hc hs, ?_, ?_, ?_⟩
  · refine (List.perm_ext_iff_of_nodup ?_ ?_).mpr hmem_iff
    · rw [MtcList.sync_self_map_content]
      exact hc2nodup
    · rw [MtcList.sync_self_map_content]
      exact hs2nodup
  · intro v
    by_cases hv : v ∈ ((MtcList.syncStep2 { c with items := (MtcList.syncStep1 s c.items).1 }
        ((MtcList.syncStep1 s c.items).2).items).sync_self).items.map Item.content
    · have hb : (((MtcList.syncStep2 { c with items := (MtcList.syncStep1 s c.items).1 }
          ((MtcList.syncStep1 s c.items).2).items).sync_self).items.map
          Item.content).count v ≤ 1 := by
        refine List.nodup_iff_count_le_one.mp ?_ v
        rw [MtcList.sync_self_map_content]
        exact hc2nodup
      refine le_trans hb ?_
      rcases hmem_inputs v ((hmem_iff v).mp hv) with h | h
      · exact le_trans (List.count_pos_iff.mpr h) (le_max_left _ _)
      · exact le_trans (List.count_pos_iff.mpr h) (le_max_right _ _)
    · rw [List.count_eq_zero_of_not_mem hv]
      exact Nat.zero_le _
  · intro v
    by_cases hv : v ∈ ((((MtcList.syncStep1 s c.items).2).sync_self).items.map Item.content)
    · have hb : (((((MtcList.syncStep1 s c.items).2).sync_self).items.map
          Item.content)).count v ≤ 1 := by
        refine List.nodup_iff_count_le_one.mp ?_ v
        rw [MtcList.sync_self_map_content]
        exact hs2nodup
      refine le_trans hb ?_
      rcases hmem_inputs v hv with h | h
      · exact le_trans (List.count_pos_iff.mpr h) (le_max_left _ _)
      · exact le_trans (List.count_pos_iff.mpr h) (le_max_right _ _)
    · rw [List.count_eq_zero_of_not_mem hv]
      exact Nat.zero_le _

/-- Witness for C1's amended theorem at a concrete input: client `[1 New]`,
server `[2 Neutral]`. -/
theorem sync_no_duplication_witness :
    ∃ c2 s2, (⟨[⟨(1 : Nat), ItemState.New, 0⟩], false⟩ : MtcList Nat).sync
        ⟨[⟨2, ItemState.Neutral, 0⟩], true⟩ = some (c2, s2) ∧
      (c2.items.map Item.content).Perm (s2.items.map Item.content) ∧
      (∀ v, (c2.items.map Item.content).count v ≤
        max ((([⟨(1 : Nat), ItemState.New, 0⟩] : List (Item Nat)).map Item.content).count v)
          ((([⟨(2 : Nat), ItemState.Neutral, 0⟩] : List (Item Nat)).map Item.content).count v)) ∧
      (∀ v, (s2.items.map Item.content).count v ≤
        max ((([⟨(1 : Nat), ItemState.New, 0⟩] : List (Item Nat)).map Item.content).count v)
          ((([⟨(2 : Nat), ItemState.Neutral, 0⟩] : List (Item Nat)).map Item.content).count v)) :=
  sync_no_duplication ⟨[⟨1, ItemState.New, 0⟩], false⟩ ⟨[⟨2, ItemState.Neutral, 0⟩], true⟩
    rfl rfl (by decide) (by decide) (by decide) (by decide)

/-- Counterexample for C1 as stated: client `[0 New]`, server `[0 Neutral]`
(contents pairwise distinct within each list).  After `sync` the server
carries content `0` twice while the client carries it once: the outputs are
not content-equal as multisets, and the count bound is exceeded. -/
theorem sync_no_duplication_cx :
    (⟨[⟨(0 : Nat), ItemState.New, 0⟩], false⟩ : MtcList Nat).sync
        ⟨[⟨0, ItemState.Neutral, 0⟩], true⟩ =
      some (⟨[⟨0, ItemState.Neutral, 0⟩], false⟩,
        ⟨[⟨0, ItemState.Neutral, 0⟩, ⟨0, ItemState.Neutral, 1⟩], true⟩) ∧
    ¬(([⟨(0 : Nat), ItemState.Neutral, 0⟩] : List (Item Nat)).map Item.content).Perm
      (([⟨(0 : Nat), ItemState.Neutral, 0⟩, ⟨0, ItemState.Neutral, 1⟩] :
        List (Item Nat)).map Item.content) ∧
    ¬((([⟨(0 : Nat), ItemState.Neutral, 0⟩, ⟨0, ItemState.Neutral, 1⟩] :
        List (Item Nat)).map Item.content).count 0 ≤
      max ((([⟨(0 : Nat), ItemState.New, 0⟩] : List (Item Nat)).map Item.content).count 0)
        ((([⟨(0 : Nat), ItemState.Neutral, 0⟩] : List (Item Nat)).map Item.content).count 0)) := by
  refine ⟨by decide, ?_, by decide⟩
  intro hperm
  have := hperm.length_eq
  simp at this
